import Mathlib

/-!
A shallow embedding of the node-level B+tree engine in src/bplus.c
(binary search family, leaf nodes, inner nodes, node factories),
together with theorems settling the frozen claims about it.

Modelling conventions:
* machine bytes are `Nat` values, keys and values are `List Nat` of the
  configured fixed size;
* C int results are `Int` (the code returns 0 / -1 / 1);
* `malloc` is modelled by an allocation stream `List (Option Nat)`:
  each node creation pops one entry, `none` is an allocation failure and
  `some id` is a fresh address `id` (used for the leaf sibling links);
  an exhausted stream defaults to success with address 0;
* in-place mutation through pointers becomes explicit state passing: an
  operation returns the updated node(s);
* the comparator stored in `common.compare` at creation is passed as an
  explicit `Option Cmp` argument to each operation, `none` standing for
  the NULL pointer that the search functions replace by `bp_compare`.
-/

namespace BPlus

/-- Fixed-size byte strings (keys, values). -/
abbrev Bytes := List Nat

/-- A comparator, `compare(a, b, size) -> negative|zero|positive`. -/
abbrev Cmp := Bytes → Bytes → Int

/-- Model of `memcmp` over the configured number of bytes, which is the
default comparator `bp_compare` (src/bplus.c line 164).  Both arguments
have the configured size, so comparison is byte-lexicographic; only the
sign of the result is ever inspected by the code. -/
def memcmpBytes : Bytes → Bytes → Int
  | [], _ => 0
  | _ :: _, [] => 0
  | a :: as, b :: bs => if a < b then -1 else if b < a then 1 else memcmpBytes as bs

/-- The default comparator installed when the caller passes NULL. -/
def bp_compare : Cmp := memcmpBytes

/-- `compare = compare ? compare : bp_compare` (lines 209, 272, 320). -/
def bp_effective_compare (c : Option Cmp) : Cmp := c.getD bp_compare

/-- The loop of `bp_bi_search_one` (lines 213-232) plus its exit code
(lines 234-237), on item indices instead of pointers.  `low` is the index
of the first candidate and `itemNum` the number of remaining candidates;
the C loop guard `low <= high` is equivalent to `itemNum > 0` because
`item_num = (high - low) / item_size + 1` is an invariant of the loop.
The loop is entered with `itemNum ≥ 1`; after an iteration whose next
`itemNum` would be 0 it returns the post-loop `found_idx`: `mid` when the
last comparison was negative, `low` (that is `mid + 1`) when positive.
`fuel` is a structural bound on the number of iterations: `itemNum`
strictly decreases each iteration, so the entry point passes
`fuel = itemNum` and the `fuel = 0` fallback is never reached. -/
def bpSearchOneAux {K : Type} (cmp : K → K → Int) (keyAt : Nat → K) (target : K) :
    Nat → Nat → Nat → Bool × Nat
  | 0, low, _ => (false, low)
  | fuel + 1, low, itemNum =>
      let half := if itemNum / 2 = 0 then 1 else itemNum / 2
      let mid := low + half - 1
      let c := cmp target (keyAt mid)
      if c = 0 then (true, mid)
      else if 0 < c then
        if itemNum - half = 0 then (false, mid + 1)
        else bpSearchOneAux cmp keyAt target fuel (mid + 1) (itemNum - half)
      else
        if half - 1 = 0 then (false, mid)
        else bpSearchOneAux cmp keyAt target fuel low (half - 1)

/-- `bp_bi_search_one` (lines 186-240).  The packed array `content` with
its `item_size` stride and in-item key `offset` is modelled as the list
of the keys of its items; `content_len == 0` is the empty list.  Returns
`(found, found_idx)`. -/
def bp_bi_search_one {K : Type} (cmp : K → K → Int) (keys : List K) (target : K) :
    Bool × Nat :=
  if keys.length = 0 then (false, 0)
  else bpSearchOneAux cmp (fun i => keys.getD i target) target keys.length 0
    keys.length

/-- The left scan of `bp_bi_search_first` (lines 280-285): while the left
neighbour compares equal to the target, move left. -/
def bpScanEqLeft {K : Type} (cmp : K → K → Int) (keyAt : Nat → K) (target : K) :
    Nat → Nat
  | 0 => 0
  | i + 1 => if cmp (keyAt i) target = 0 then bpScanEqLeft cmp keyAt target i else i + 1

/-- `bp_bi_search_first` (lines 260-288). -/
def bp_bi_search_first {K : Type} (cmp : K → K → Int) (keys : List K) (target : K) :
    Bool × Nat :=
  match bp_bi_search_one cmp keys target with
  | (false, idx) => (false, idx)
  | (true, idx) => (true, bpScanEqLeft cmp (fun i => keys.getD i target) target idx)

/-- The right scan of `bp_bi_search_last` (lines 327-332): while the index
is below `content_len / item_size - 1` and the right neighbour compares
equal to the target, move right.  The structural bound `fuel` counts the
remaining distance to the right end: the caller passes `fuel = n - 1 - i`,
which is invariant under the step `(fuel + 1, i) → (fuel, i + 1)`, and at
`fuel = 0` the guard `i < n - 1` is false anyway, so both arms agree with
the loop. -/
def bpScanEqRightAux {K : Type} (cmp : K → K → Int) (keyAt : Nat → K) (target : K)
    (n : Nat) : Nat → Nat → Nat
  | 0, i => i
  | fuel + 1, i =>
      if i < n - 1 then
        if cmp (keyAt (i + 1)) target = 0 then
          bpScanEqRightAux cmp keyAt target n fuel (i + 1)
        else i
      else i

/-- The right scan entered at index `i` of an array of `n` items. -/
def bpScanEqRight {K : Type} (cmp : K → K → Int) (keyAt : Nat → K) (target : K)
    (n : Nat) (i : Nat) : Nat :=
  bpScanEqRightAux cmp keyAt target n (n - 1 - i) i

/-- `bp_bi_search_last` (lines 308-335). -/
def bp_bi_search_last {K : Type} (cmp : K → K → Int) (keys : List K) (target : K) :
    Bool × Nat :=
  match bp_bi_search_one cmp keys target with
  | (false, idx) => (false, idx)
  | (true, idx) =>
      (true, bpScanEqRight cmp (fun i => keys.getD i target) target keys.length idx)

/-- Pop one outcome from the allocation stream; an exhausted stream
defaults to a successful allocation at address 0. -/
def allocPop : List (Option Nat) → Option Nat × List (Option Nat)
  | [] => (some 0, [])
  | a :: r => (a, r)

/-- A data (leaf) node, `bp_data_node_t` (lines 100-108).  `items` is the
valid prefix of the packed `(key, value)` content, so `common.key_num` is
`items.length`; `next` is the trailing next-leaf pointer `pnext` and `id`
the address of the node itself, so the sibling links of the claims read
`old.next = some new.id`. -/
structure DataNode where
  max_key_num : Nat
  min_key_num : Nat
  key_size : Nat
  value_size : Nat
  items : List (Bytes × Bytes)
  next : Option Nat
  id : Nat
deriving DecidableEq, Repr

/-- `bp_data_node_need_split` (lines 343-346): `key_num >= max_key_num`. -/
def bp_data_node_need_split (d : DataNode) : Bool :=
  decide (d.max_key_num ≤ d.items.length)

/-- `bp_create_data_node` (lines 543-572): a zeroed node with `key_num = 0`
and NULL `pnext`, or `none` when `malloc` fails. -/
def bp_create_data_node (maxKvNum minKvNum keySize valueSize : Nat)
    (allocId : Option Nat) : Option DataNode :=
  allocId.map fun id =>
    { max_key_num := maxKvNum, min_key_num := minKvNum, key_size := keySize,
      value_size := valueSize, items := [], next := none, id := id }

/-- `bp_data_node_split` (lines 393-430).  On allocation failure the result
is `(-1, old, none)`: the source checks `malloc` before touching `old`.
On success the old node keeps the lower `key_num / 2` items, the new node
receives the rest, the new node takes over `old.next` and `old.next` is
pointed at the new node. -/
def bp_data_node_split (old : DataNode) (allocId : Option Nat) :
    Int × DataNode × Option DataNode :=
  match bp_create_data_node old.max_key_num old.min_key_num old.key_size
      old.value_size allocId with
  | none => (-1, old, none)
  | some nw =>
      let oldNum := old.items.length / 2
      let o := { old with items := old.items.take oldNum, next := some nw.id }
      let n := { nw with items := old.items.drop oldNum, next := old.next }
      (0, o, some n)

/-- `bp_data_node_max_key` (lines 514-531): `-1` on an empty node,
otherwise the first `min(key_buf_len, key_size)` bytes of the last key
together with that copied length. -/
def bp_data_node_max_key (d : DataNode) (keyBufLen : Nat) : Int × Bytes :=
  if d.items.length = 0 then (-1, [])
  else
    let cpLen := if keyBufLen < d.key_size then keyBufLen else d.key_size
    (cpLen, ((d.items.getLast?).getD ([], [])).1.take cpLen)

/-- The second half of `bp_data_node_insert_data` (lines 465-503): choose
the half that receives the item when a split occurred, then place the
item.  The equal-key branch at line 477 reads
`if (0 == memcpy(key, min_key_of_new, data->key_size))`: `memcpy` returns
its first argument, a non-null pointer, so the branch is never taken and,
as a side effect, the bytes of `key` are overwritten with the minimum key
of the new half.  The model reproduces both effects. -/
def bp_data_node_place (cmp : Option Cmp) (d0 : DataNode) (ppNew : Option DataNode)
    (key0 pos : Bytes) : Int × DataNode × Option DataNode :=
  let (intoNew, key) :=
    match ppNew with
    | none => (false, key0)
    | some nw =>
        let maxKeyOfData := ((d0.items.getLast?).getD ([], [])).1
        let cmpRes := memcmpBytes key0 maxKeyOfData
        if 0 < cmpRes then (true, key0)
        else if cmpRes = 0 then (false, ((nw.items.headD ([], [])).1))
        else (false, key0)
  let t := if intoNew then ppNew.getD d0 else d0
  let (found, foundIdx) :=
    bp_bi_search_last (bp_effective_compare cmp) (t.items.map Prod.fst) key
  let insIdx := if found then foundIdx + 1 else foundIdx
  let t' := { t with items := t.items.take insIdx ++ [(key, pos)] ++ t.items.drop insIdx }
  if intoNew then (0, d0, some t') else (0, t', ppNew)

/-- `bp_data_node_insert_data` (lines 441-504).  A needed split pops one
entry from the allocation stream; a failed split aborts the insert with
`-1` and the leaf untouched (the split fails exactly when it produces no
new node, which is when the source returns `-1`). -/
def bp_data_node_insert_data (cmp : Option Cmp) (d : DataNode) (key pos : Bytes)
    (alloc : List (Option Nat)) :
    Int × DataNode × Option DataNode × List (Option Nat) :=
  if bp_data_node_need_split d then
    let (a, rest) := allocPop alloc
    match bp_data_node_split d a with
    | (_, _, none) => (-1, d, none, rest)
    | (_, o, some nw) =>
        let (r, d', pp) := bp_data_node_place cmp o (some nw) key pos
        (r, d', pp, rest)
  else
    let (r, d', pp) := bp_data_node_place cmp d none key pos
    (r, d', pp, alloc)

/-- Repeated leaf inserts under an allocator that refuses every request:
any split attempt fails the run, so a final `some` certifies that no
split was ever triggered. -/
def runDataInsertsNoSplit (cmp : Option Cmp) (d : DataNode) :
    List (Bytes × Bytes) → Option DataNode
  | [] => some d
  | (k, v) :: rest =>
      match bp_data_node_insert_data cmp d k v [none] with
      | (0, d', none, _) => runDataInsertsNoSplit cmp d' rest
      | _ => none

/-- The interleaved key and value bytes of a leaf buffer, in item order. -/
def flattenItems : List (Bytes × Bytes) → Bytes
  | [] => []
  | (k, v) :: rest => k ++ v ++ flattenItems rest

/-- A node of the tree, `bp_node_t` dispatched on `common.type`.  An inner
node `bp_inner_node_t` (lines 110-118) carries its capacity
`max_key_num`, its `key_size`, its `key_num`, the meaningful prefix of
its packed `(child pointer, separator key)` slots, and `key_total`.  A
slot pointer is `Option` because the zero-initialized buffer holds NULL
child pointers (for example slot 0 right after
`bp_inner_node_set_first_ptr` wired a first child but `key_num` is still
0, the key bytes of that slot being the zero bytes of `memset`). -/
inductive Node where
  | data (d : DataNode) : Node
  | inner (maxKeyNum keySize keyNum : Nat)
      (slots : List (Option Node × Bytes)) (keyTotal : Nat) : Node

/-- A slot of an inner node buffer: child pointer then separator key. -/
abbrev Slot := Option Node × Bytes

/-- A zeroed slot of the `memset` buffer: NULL pointer, zero key bytes. -/
def zeroSlot (keySize : Nat) : Slot := (none, List.replicate keySize 0)

/-- Extend the modelled buffer prefix with zeroed slots up to length `n`,
so that a write into the zero-initialized slack behind the valid slots
lands on the zero bytes the source would find there. -/
def slotEnsure (slots : List Slot) (n keySize : Nat) : List Slot :=
  slots ++ List.replicate (n - slots.length) (zeroSlot keySize)

/-- `memcpy` of `bs.length` bytes into the front of a key field that
holds `old`: the copied bytes replace the prefix, the tail survives. -/
def overwriteBytes (old bs : Bytes) : Bytes := bs ++ old.drop bs.length

/-- Write the key field of slot `i` (a `memcpy` into
`content + i * item_size + sizeof(ptr)`). -/
def writeSlotKey (keySize : Nat) (slots : List Slot) (i : Nat) (bs : Bytes) :
    List Slot :=
  let s := slotEnsure slots (i + 1) keySize
  s.set i ((s.getD i (zeroSlot keySize)).1, overwriteBytes (s.getD i (zeroSlot keySize)).2 bs)

/-- Write the pointer field of slot `i` (a `memcpy` of a `bp_node_t *`
into `content + i * item_size`). -/
def writeSlotPtr (keySize : Nat) (slots : List Slot) (i : Nat) (p : Option Node) :
    List Slot :=
  let s := slotEnsure slots (i + 1) keySize
  s.set i (p, (s.getD i (zeroSlot keySize)).2)

/-- Write a whole slot (a `memcpy` of `item_size` bytes). -/
def writeSlotFull (keySize : Nat) (slots : List Slot) (i : Nat) (sl : Slot) :
    List Slot :=
  (slotEnsure slots (i + 1) keySize).set i sl

/-- The shift loop of `bp_inner_node_add_split_child` (lines 659-662):
`for (tmp = content + valid_data_len - item_size; tmp > child_position;
tmp -= item_size) memcpy(tmp + item_size, tmp, item_size)`, with `s` the
slot index of `tmp` counting down and `low` the index of
`child_position`.  The entry value of `s` is `h - 1` where
`valid_data_len = h * item_size`. -/
def shiftSlotsUp (keySize low : Nat) : List Slot → Nat → List Slot
  | slots, 0 => slots
  | slots, s + 1 =>
      if low < s + 1 then
        shiftSlotsUp keySize low
          (writeSlotFull keySize slots (s + 2) (slots.getD (s + 1) (zeroSlot keySize))) s
      else slots

/-- `bp_inner_node_max_key` (lines 720-738) on the fields of an inner
node: `-1` when `key_num <= 0`, otherwise the first
`min(key_buf_len, key_size)` bytes of the separator key of the last
valid slot. -/
def bp_inner_node_max_key (keySize keyNum : Nat) (slots : List Slot)
    (keyBufLen : Nat) : Int × Bytes :=
  if keyNum = 0 then (-1, [])
  else
    let cpLen := if keyBufLen < keySize then keyBufLen else keySize
    (cpLen, (slots.getD (keyNum - 1) (zeroSlot keySize)).2.take cpLen)

/-- The `child->max_key(child, buf, len)` dispatch of
`bp_inner_node_add_split_child` (lines 655, 667).  For a data child this
is the installed `bp_data_node_max_key`.  For an inner child the factory
left `common.max_key` NULL (line 764, see the claim about the dispatch
table), so the source would call a NULL pointer; the model dispatches to
`bp_inner_node_max_key`, the evidently intended target (never reached by
any theorem below). -/
def bp_node_max_key : Node → Nat → Int × Bytes
  | .data d, bufLen => bp_data_node_max_key d bufLen
  | .inner _ ks kn slots _, bufLen => bp_inner_node_max_key ks kn slots bufLen

/-- `bp_inner_node_split` (lines 591-620) on the fields of an inner node:
`none` when the allocation of the new node fails (the old node is then
untouched), otherwise the old node keeps the lower `key_num / 2` slots
and the freshly created node (whose `key_total` stays 0) receives the
remaining valid slots. -/
def bp_inner_node_split (maxKeyNum keySize keyNum : Nat) (slots : List Slot)
    (allocId : Option Nat) : Option ((Nat × List Slot) × Node) :=
  match allocId with
  | none => none
  | some _ =>
      let oldNum := keyNum / 2
      let newNum := keyNum - oldNum
      some ((oldNum, slots.take oldNum),
        .inner maxKeyNum keySize newNum ((slots.take keyNum).drop oldNum) 0)

/-- `bp_inner_node_add_split_child` (lines 622-672), acting on the fields
of the inner node `(keyNum, slots)`.  Mirrors the source: an optional own
split first (popping an allocation), the choice of the half that keeps
`child_idx` (adjusting the index when it falls into the new half), the
refresh of the separator of the child slot from `child->max_key` (skipped
when that call returns `-1`), the shift loop whose bound is computed from
the key count of `inner` even when the write target is the split half,
and the write of the `(split_child, split_child max key)` slot at
`child_idx + 1` followed by the key-count increment of the target half.
Returns `(ret, keyNum, slots, *split_inner, alloc)`. -/
def bp_inner_node_add_split_child (maxKeyNum keySize keyNum : Nat)
    (slots : List Slot) (child splitChild : Node) (childIdx : Nat)
    (alloc : List (Option Nat)) :
    Int × Nat × List Slot × Option Node × List (Option Nat) :=
  let needSplit := keyNum = maxKeyNum
  let (allocStep, rest) := if needSplit then
      let p := allocPop alloc
      (some p.1, p.2)
    else (none, alloc)
  match if needSplit then
      (bp_inner_node_split maxKeyNum keySize keyNum slots (allocStep.getD none)).map some
    else some none with
  | none => (-1, keyNum, slots, none, rest)
  | some splitRes =>
      let innerKn := match splitRes with
        | none => keyNum
        | some ((oldNum, _), _) => oldNum
      let innerSlots := match splitRes with
        | none => slots
        | some ((_, oldSlots), _) => oldSlots
      -- which half holds child_idx (lines 641-649)
      let (targetIsOld, adjIdx) :=
        match splitRes with
        | none => (true, childIdx)
        | some _ => if childIdx < innerKn then (true, childIdx)
                    else (false, childIdx - innerKn)
      let (targetKn, targetSlots) :=
        if targetIsOld then (innerKn, innerSlots)
        else match splitRes with
          | some (_, .inner _ _ kn sl _) => (kn, sl)
          | _ => (innerKn, innerSlots)
      -- refresh the separator of the child slot (lines 654-656)
      let ts1 := match bp_node_max_key child keySize with
        | (-1, _) => targetSlots
        | (_, bs) => writeSlotKey keySize targetSlots adjIdx bs
      -- shift loop bound from the key count of inner (line 652)
      let ts2 := shiftSlotsUp keySize adjIdx ts1 (innerKn - 1)
      -- insert the split child slot (lines 665-668)
      let ts3 := writeSlotPtr keySize ts2 (adjIdx + 1) (some splitChild)
      let ts4 := match bp_node_max_key splitChild keySize with
        | (-1, _) => ts3
        | (_, bs) => writeSlotKey keySize ts3 (adjIdx + 1) bs
      let targetKn' := targetKn + 1
      if targetIsOld then
        (0, targetKn', ts4,
          (match splitRes with
           | some (_, .inner mx ks kn sl kt) => some (Node.inner mx ks kn sl kt)
           | _ => none), rest)
      else
        (0, innerKn, innerSlots,
          some (.inner maxKeyNum keySize targetKn' ts4 0), rest)

/-- `bp_inner_node_get_insert_position` (lines 574-589): the child pointer
of slot `found_idx` when that lies in the valid area, otherwise the child
pointer of the last valid slot. -/
def bp_inner_node_get_insert_position (keySize keyNum : Nat) (slots : List Slot)
    (foundIdx : Nat) : Option Node :=
  if foundIdx < keyNum then (slots.getD foundIdx (zeroSlot keySize)).1
  else (slots.getD (keyNum - 1) (zeroSlot keySize)).1

/-- The polymorphic `node->insert` dispatch: `bp_data_node_insert_data`
for a data node, `bp_inner_node_insert_data` (lines 674-718) for an inner
node.  Recursion is bounded by the `fuel` depth budget (`none` when it
runs out; every theorem below supplies enough).  The steps of the inner
case: adopt the key as the first separator when `key_num == 0`
(lines 691-695), locate the covering child with `bp_bi_search_last` over
the separators, widen the last separator when `found_idx == key_num`
(lines 702-704), recurse into the child, propagate `-1` (line 709)
— the child, mutated in place through its pointer, stays mutated — and
otherwise hand a split child to `bp_inner_node_add_split_child`, whose
return value the source discards (line 712), before incrementing
`key_total` and returning 0.  Reading a NULL child pointer would
dereference NULL in the source; the model returns `-1` there. -/
def bp_node_insert (cmp : Option Cmp) :
    Nat → Node → Bytes → Bytes → List (Option Nat) →
    Option (Int × Node × Option Node × List (Option Nat))
  | 0, _, _, _, _ => none
  | _ + 1, .data d, key, pos, alloc =>
      let (r, d', nw, a') := bp_data_node_insert_data cmp d key pos alloc
      some (r, .data d', nw.map .data, a')
  | fuel + 1, .inner mx ks kn0 slots0 kt, key, pos, alloc =>
      let kn := if kn0 = 0 then 1 else kn0
      let slots1 := if kn0 = 0 then writeSlotKey ks slots0 0 key else slots0
      let keys := (slots1.take kn).map Prod.snd
      let (_, foundIdx) := bp_bi_search_last (bp_effective_compare cmp) keys key
      let slots2 := if foundIdx = kn then writeSlotKey ks slots1 (kn - 1) key
        else slots1
      let cidx := if foundIdx < kn then foundIdx else kn - 1
      match bp_inner_node_get_insert_position ks kn slots2 foundIdx with
      | none => some (-1, .inner mx ks kn slots2 kt, none, alloc)
      | some child =>
          match bp_node_insert cmp fuel child key pos alloc with
          | none => none
          | some (r, child', splitChild?, a') =>
              let slots3 := writeSlotPtr ks slots2 cidx (some child')
              if r = -1 then some (-1, .inner mx ks kn slots3 kt, none, a')
              else match splitChild? with
                | none => some (0, .inner mx ks kn slots3 (kt + 1), none, a')
                | some sc =>
                    let (_, kn', slots', ppNew, a'') :=
                      bp_inner_node_add_split_child mx ks kn slots3 child' sc
                        foundIdx a'
                    some (0, .inner mx ks kn' slots' (kt + 1), ppNew, a'')

/-- A sequence of inserts through one entry node, stopping at the first
call that fails, splits the entry node, or runs out of fuel. -/
def bp_insert_seq (cmp : Option Cmp) (fuel : Nat) :
    List (Bytes × Bytes) → Node → List (Option Nat) →
    Option (Int × Node × Option Node × List (Option Nat))
  | [], n, a => some (0, n, none, a)
  | (k, v) :: rest, n, a =>
      match bp_node_insert cmp fuel n k v a with
      | some (0, n', none, a') => bp_insert_seq cmp fuel rest n' a'
      | r => r

/-- The separator keys of the valid slots of an inner node. -/
def nodeSepKeys : Node → List Bytes
  | .inner _ _ kn slots _ => (slots.take kn).map Prod.snd
  | .data _ => []

/-- The key count of a node, `bp_node_get_key_num`. -/
def bp_node_get_key_num : Node → Nat
  | .inner _ _ kn _ _ => kn
  | .data d => d.items.length

/-- The key lists of the direct children of an inner node (a NULL child
or an inner child reads as `none`). -/
def nodeChildKeyLists : Node → List (Option (List Bytes))
  | .inner _ _ kn slots _ =>
      (slots.take kn).map fun s =>
        match s.1 with
        | some (.data d) => some (d.items.map Prod.fst)
        | _ => none
  | .data _ => []

/-- The data-node payloads of the direct children of an inner node. -/
def nodeChildLeaves : Node → List (Option DataNode)
  | .inner _ _ kn slots _ =>
      (slots.take kn).map fun s =>
        match s.1 with
        | some (.data d) => some d
        | _ => none
  | .data d => [some d]

/-- `bp_node_type_e` (libbplus.h). -/
inductive BpNodeType where
  | innerType
  | dataType
deriving DecidableEq

/-- The function pointers a factory can store in the insert slot of the
dispatch table of `bp_node_common_t`. -/
inductive InsertImpl where
  | bpDataNodeInsertData
  | bpInnerNodeInsertData
  | nullPtr
deriving DecidableEq

/-- The function pointers a factory can store in the max-key slot of the
dispatch table of `bp_node_common_t`. -/
inductive MaxKeyImpl where
  | bpDataNodeMaxKey
  | bpInnerNodeMaxKey
  | nullPtr
deriving DecidableEq

/-- `bp_node_common_t` (lines 84-94): type tag, the dispatch table
`{insert, max_key}` (function pointers modelled as tags), and the
capacity bounds and key count.  The comparator slot is carried by the
operations themselves in this model. -/
structure NodeCommon where
  type : BpNodeType
  insert : InsertImpl
  max_key : MaxKeyImpl
  max_key_num : Nat
  min_key_num : Nat
  key_num : Nat
deriving DecidableEq

/-- The header that `bp_create_data_node` stores (lines 558-564). -/
def bp_create_data_node_common (maxKvNum minKvNum : Nat) : NodeCommon :=
  { type := .dataType, insert := .bpDataNodeInsertData,
    max_key := .bpDataNodeMaxKey,
    max_key_num := maxKvNum, min_key_num := minKvNum, key_num := 0 }

/-- The header that `bp_create_inner_node` stores (lines 758-764): the
max-key slot receives NULL (`new->common.max_key = NULL`, line 764). -/
def bp_create_inner_node_common (maxKeyNum : Nat) : NodeCommon :=
  { type := .innerType, insert := .bpInnerNodeInsertData,
    max_key := .nullPtr,
    max_key_num := maxKeyNum, min_key_num := maxKeyNum / 2, key_num := 0 }

/-- A comparator that agrees with the linear order of the key type: the
contract of section 6 of the specification (negative below, zero on
equality, hence positive above). -/
def CmpAgrees {K : Type} [LinearOrder K] (cmp : K → K → Int) : Prop :=
  ∀ a b : K, (cmp a b < 0 ↔ a < b) ∧ (cmp a b = 0 ↔ a = b)

/-- A sign comparator on `Nat`, used to instantiate the search theorems. -/
def natCmp (a b : Nat) : Int := if a < b then -1 else if a = b then 0 else 1

/-- The empty capacity-6 leaf of the duplicate-key scenario (the leaf of
test `LeafNode.Insert`): key and value size 1. -/
def c6Leaf : DataNode :=
  { max_key_num := 6, min_key_num := 3, key_size := 1, value_size := 1,
    items := [], next := none, id := 0 }

/-- The insert sequence `(1,1),(3,5),(2,3),(2,4),(3,6),(1,2)` of the
duplicate-key scenario, digits as ASCII bytes. -/
def c6Inserts : List (Bytes × Bytes) :=
  [([49], [49]), ([51], [53]), ([50], [51]), ([50], [52]), ([51], [54]),
   ([49], [50])]

/-- The empty capacity-4 leaf of the inner-node scenario (the leaf of
test `InnerNode.Insert`): key and value size 2, address 1. -/
def c5Leaf : DataNode :=
  { max_key_num := 4, min_key_num := 2, key_size := 2, value_size := 2,
    items := [], next := none, id := 1 }

/-- The capacity-4, key-size-2 inner node whose single leading child (the
zero-key slot 0, `key_num = 0`) is the scenario leaf, as wired by
`bp_inner_node_set_first_ptr`. -/
def c5Root : Node := .inner 4 2 0 [(some (.data c5Leaf), [0, 0])] 0

/-- The separators `"55","88","11","22","33"` of the inner-node scenario
as ASCII byte pairs, inserted with value bytes equal to the key bytes. -/
def c5Inserts : List (Bytes × Bytes) :=
  [([53, 53], [53, 53]), ([56, 56], [56, 56]), ([49, 49], [49, 49]),
   ([50, 50], [50, 50]), ([51, 51], [51, 51])]

/-- The full capacity-2 leaf (keys 1 and 5) under the inner nodes of the
allocation-failure scenarios. -/
def c2Leaf : DataNode :=
  { max_key_num := 2, min_key_num := 1, key_size := 1, value_size := 1,
    items := [([1], [1]), ([5], [5])], next := none, id := 0 }

/-- The full capacity-2 leaf (keys 1 and 2) of the equal-key routing
scenario. -/
def c1Leaf : DataNode :=
  { max_key_num := 2, min_key_num := 1, key_size := 1, value_size := 1,
    items := [([1], [10]), ([2], [20])], next := none, id := 0 }

/-- The full capacity-2 leaf (two items with the duplicate key 1) of the
second equal-key routing scenario. -/
def c1LeafDup : DataNode :=
  { max_key_num := 2, min_key_num := 1, key_size := 1, value_size := 1,
    items := [([1], [10]), ([1], [11])], next := none, id := 0 }

/-- The specification of a search outcome `(found, idx)` for `target` in
`keys`: when found, `idx` is an in-range index of a matching key; when
not found, every key strictly before `idx` is below the target and every
key from `idx` on is above it — so `idx` is the first index whose key
exceeds the target, or the item count when the target exceeds all
keys. -/
def SearchResultSpec {K : Type} [LinearOrder K] (keys : List K) (target : K)
    (r : Bool × Nat) : Prop :=
  (r.1 = true → r.2 < keys.length ∧ keys.getD r.2 target = target) ∧
  (r.1 = false → r.2 ≤ keys.length ∧
    (∀ k, k < r.2 → keys.getD k target < target) ∧
    (∀ k, r.2 ≤ k → k < keys.length → target < keys.getD k target))

/-- C1 claim: after a leaf split the new item goes to the new half iff its
key is strictly greater than the maximum key of the old half, or equal to
it and also equal to the minimum key of the new half; otherwise the
(key, value) item goes to the old half.

The code refutes this.  Line 477 reads
`if (0 == memcpy(key, min_key_of_new, data->key_size))` where the intent
(per the comment at lines 474-475) was `memcmp`: `memcpy` returns `key`,
a non-null pointer, so the new half is never chosen on equality, and the
bytes of `key` are overwritten with the minimum key of the new half.

First conjunct, leaf `[(1,10),(2,20)]`, insert `(1,30)`: the split makes
old = `[(1,10)]`, new = `[(2,20)]`; the key 1 equals the old maximum and
differs from the new minimum 2, so the claim places `(1,30)` in the old
half — but the code corrupts the key and stores `(2,30)` there instead;
the item `(1,30)` is stored nowhere.

Second conjunct, leaf `[(1,10),(1,11)]`, insert `(1,30)`: the key equals
both the old maximum and the new minimum, so the claim targets the new
half — but the code inserts into the old half (`memcpy` is a no-op here
but still returns non-null). -/
theorem leaf_insert_equal_key_memcpy_slip :
    (bp_data_node_insert_data none c1Leaf [1] [30] [some 5] =
      (0, { max_key_num := 2, min_key_num := 1, key_size := 1, value_size := 1,
            items := [([1], [10]), ([2], [30])], next := some 5, id := 0 },
        some { max_key_num := 2, min_key_num := 1, key_size := 1,
               value_size := 1, items := [([2], [20])], next := none, id := 5 },
        [])) ∧
    (bp_data_node_insert_data none c1LeafDup [1] [30] [some 5] =
      (0, { max_key_num := 2, min_key_num := 1, key_size := 1, value_size := 1,
            items := [([1], [10]), ([1], [30])], next := some 5, id := 0 },
        some { max_key_num := 2, min_key_num := 1, key_size := 1,
               value_size := 1, items := [([1], [11])], next := none, id := 5 },
        [])) := by
  exact ⟨by decide, by decide⟩

/-- C2 claim: when a split cannot allocate its new sibling, the failure
propagates through every recursive caller, the pending insert is not
performed and the tree is left unchanged.  The code refutes this; the
specification itself flags the required behaviour as a strengthening over
this source.

First conjunct: an inner node (capacity 4, one separator 5) over a full
leaf `[(1,1),(5,5)]`; inserting key 7 with a refusing allocator makes the
leaf split fail and the insert return `-1` — but the separator was already
widened from 5 to 7 before the recursive call, and that mutation stays
visible, so the tree is not left unchanged.

Second conjunct: a full inner node (capacity 1) over the same full leaf;
inserting key 3 lets the leaf split succeed (address 9) but the inner
node split allocation fail.  `bp_inner_node_add_split_child` returns `-1`
yet line 712 discards that value, so the insert returns 0 — the failure
does not propagate — while the child leaf has been halved to `[(1,1)]`
and the split-off sibling holding keys 3 and 5 is lost to the tree. -/
theorem inner_insert_alloc_failure_not_atomic :
    ((bp_node_insert none 2 (.inner 4 1 1 [(some (.data c2Leaf), [5])] 0)
        [7] [7] [none]).map (fun r => r.1) = some (-1) ∧
     (bp_node_insert none 2 (.inner 4 1 1 [(some (.data c2Leaf), [5])] 0)
        [7] [7] [none]).map (fun r => nodeSepKeys r.2.1) = some [[7]] ∧
     (bp_node_insert none 2 (.inner 4 1 1 [(some (.data c2Leaf), [5])] 0)
        [7] [7] [none]).map (fun r => nodeChildKeyLists r.2.1) =
       some [some [[1], [5]]]) ∧
    ((bp_node_insert none 2 (.inner 1 1 1 [(some (.data c2Leaf), [5])] 0)
        [3] [3] [some 9, none]).map (fun r => r.1) = some 0 ∧
     (bp_node_insert none 2 (.inner 1 1 1 [(some (.data c2Leaf), [5])] 0)
        [3] [3] [some 9, none]).map (fun r => nodeChildKeyLists r.2.1) =
       some [some [[1]]] ∧
     (bp_node_insert none 2 (.inner 1 1 1 [(some (.data c2Leaf), [5])] 0)
        [3] [3] [some 9, none]).map (fun r => r.2.2.1.isNone) = some true) := by
  exact ⟨⟨by decide, by decide, by decide⟩, ⟨by decide, by decide, by decide⟩⟩

/-- C5: starting from a capacity-4, key-size-2 inner node whose single
leading child is an empty capacity-4 leaf, inserting 55, 88, 11, 22, 33
makes the fifth insert split the child under the (unsplit) inner node:
it returns 0 with no new sibling for the inner node, the inner node has
two separators equal to the maximum keys 22 and 88 of its two children,
the old child keeps keys 11, 22 and the new child holds 33, 55, 88. -/
theorem inner_insert_scenario_split_child :
    (bp_insert_seq none 3 c5Inserts c5Root [some 2]).map (fun r => r.1)
      = some 0 ∧
    (bp_insert_seq none 3 c5Inserts c5Root [some 2]).map
        (fun r => r.2.2.1.isNone) = some true ∧
    (bp_insert_seq none 3 c5Inserts c5Root [some 2]).map
        (fun r => bp_node_get_key_num r.2.1) = some 2 ∧
    (bp_insert_seq none 3 c5Inserts c5Root [some 2]).map
        (fun r => nodeSepKeys r.2.1) = some [[50, 50], [56, 56]] ∧
    (bp_insert_seq none 3 c5Inserts c5Root [some 2]).map
        (fun r => nodeChildKeyLists r.2.1)
      = some [some [[49, 49], [50, 50]],
              some [[51, 51], [53, 53], [56, 56]]] := by
  exact ⟨by decide, by decide, by decide, by decide, by decide⟩

/-- C6: inserting `(1,1),(3,5),(2,3),(2,4),(3,6),(1,2)` (digits as ASCII
bytes) into an empty capacity-6 leaf with key and value size 1 succeeds
with no split — the runner uses an allocator that refuses every request,
so any attempted split would have failed the run — and leaves 6 items
whose interleaved key and value bytes read `111223243536`, each duplicate
key placed after all previously inserted equal keys. -/
theorem leaf_insert_scenario_duplicates :
    (runDataInsertsNoSplit none c6Leaf c6Inserts).map
        (fun d => (d.items.length, flattenItems d.items))
      = some (6, [49, 49, 49, 50, 50, 51, 50, 52, 51, 53, 51, 54]) := by
  decide

/-- C8 claim: every node produced by a factory carries a dispatch table
populated with both the insert and the max-key operation.  The code
refutes this for the inner factory: `bp_create_inner_node` stores NULL
in the max-key slot (line 764) instead of `bp_inner_node_max_key`, so an
inner node has no installed max-key operation (invoking it through the
table, as `bp_inner_node_add_split_child` does for a child, would call a
NULL pointer).  The data factory does populate both slots. -/
theorem inner_factory_max_key_null (maxKeyNum maxKvNum minKvNum : Nat) :
    (bp_create_inner_node_common maxKeyNum).max_key = MaxKeyImpl.nullPtr ∧
    (bp_create_inner_node_common maxKeyNum).max_key ≠
      MaxKeyImpl.bpInnerNodeMaxKey ∧
    (bp_create_inner_node_common maxKeyNum).insert =
      InsertImpl.bpInnerNodeInsertData ∧
    (bp_create_data_node_common maxKvNum minKvNum).insert =
      InsertImpl.bpDataNodeInsertData ∧
    (bp_create_data_node_common maxKvNum minKvNum).max_key =
      MaxKeyImpl.bpDataNodeMaxKey := by
  exact ⟨rfl, fun h => MaxKeyImpl.noConfusion h, rfl, rfl, rfl⟩

/-- C9: when allocating the new sibling fails, `bp_data_node_split`
returns `-1` with the sibling output NULL and the leaf unchanged, and a
leaf insert that needed that split returns `-1` with the leaf unchanged,
no item written and no count incremented: the leaf path is atomic on
allocation failure. -/
theorem leaf_split_alloc_failure_atomic (cmp : Option Cmp) (d : DataNode)
    (key pos : Bytes) (h : bp_data_node_need_split d = true) :
    bp_data_node_split d none = (-1, d, none) ∧
    bp_data_node_insert_data cmp d key pos [none] = (-1, d, none, []) := by
  refine ⟨rfl, ?_⟩
  simp only [bp_data_node_insert_data, h, if_true, allocPop]
  rfl

/-- Witness for the leaf allocation-failure theorem at the full
capacity-2 leaf `[(1,1),(5,5)]`. -/
theorem leaf_split_alloc_failure_atomic_witness :
    bp_data_node_need_split c2Leaf = true ∧
    (bp_data_node_split c2Leaf none = (-1, c2Leaf, none) ∧
      bp_data_node_insert_data none c2Leaf [3] [7] [none] =
        (-1, c2Leaf, none, [])) :=
  ⟨by decide, leaf_split_alloc_failure_atomic none c2Leaf [3] [7] (by decide)⟩

/-- C10: on a node with at least one item, the max-key operations copy
exactly `min(key_buf_len, key_size)` bytes of the last key (for the inner
operation, the separator key of the last valid slot) and return that
length — a buffer shorter than the key size yields a silently truncated
key and a return value equal to the buffer length, not an error — and
only an empty node (`key_num <= 0`, that is a zero count here) returns
`-1`. -/
theorem max_key_truncates_to_buffer (d : DataNode) (keyBufLen ks kn : Nat)
    (slots : List Slot) (hd : 1 ≤ d.items.length) (hkn : 1 ≤ kn) :
    bp_data_node_max_key d keyBufLen =
      (((min keyBufLen d.key_size : Nat) : Int),
        ((d.items.getLast?).getD ([], [])).1.take (min keyBufLen d.key_size)) ∧
    (keyBufLen < d.key_size →
      (bp_data_node_max_key d keyBufLen).1 = (keyBufLen : Int)) ∧
    bp_inner_node_max_key ks kn slots keyBufLen =
      (((min keyBufLen ks : Nat) : Int),
        (slots.getD (kn - 1) (zeroSlot ks)).2.take (min keyBufLen ks)) ∧
    (∀ d2 : DataNode, d2.items.length = 0 →
      bp_data_node_max_key d2 keyBufLen = (-1, [])) ∧
    (∀ sl : List Slot, bp_inner_node_max_key ks 0 sl keyBufLen = (-1, [])) := by
  have hmin : ∀ a b : Nat, (if a < b then a else b) = min a b := by
    intro a b; split <;> omega
  have hne : d.items.length ≠ 0 := by omega
  have hkne : kn ≠ 0 := by omega
  refine ⟨?_, ?_, ?_, ?_, ?_⟩
  · simp [bp_data_node_max_key, hne, hmin]
  · intro hlt
    have h1 : min keyBufLen d.key_size = keyBufLen := by omega
    simp [bp_data_node_max_key, hne, hmin, h1]
  · simp [bp_inner_node_max_key, hkne, hmin]
  · intro d2 h2
    simp [bp_data_node_max_key, h2]
  · intro sl
    simp [bp_inner_node_max_key]

/-- Witness for the max-key theorem: the two-item leaf `c1Leaf` with a
zero-length buffer (truncation), and a one-slot inner node. -/
theorem max_key_truncates_to_buffer_witness :
    1 ≤ c1Leaf.items.length ∧ 1 ≤ 1 ∧
    bp_data_node_max_key c1Leaf 0 =
      (((min 0 c1Leaf.key_size : Nat) : Int),
        ((c1Leaf.items.getLast?).getD ([], [])).1.take (min 0 c1Leaf.key_size)) :=
  ⟨by decide, by decide,
    (max_key_truncates_to_buffer c1Leaf 0 2 1 [(none, [7, 8])]
      (by decide) (by decide)).1⟩

/-- C4: a successful split of a leaf with `c` sorted items (pairwise
non-decreasing keys under the default comparator) leaves the old node
with `c / 2` items and the new node with the remaining `c - c / 2`, the
counts add back to `c`, every key remaining in the old node is at most
every key moved to the new node, and the sibling links satisfy
`new.next = old.next before the split` and `old.next = the new node`. -/
theorem bp_data_node_split_correct (old : DataNode) (id : Nat)
    (hsorted : old.items.Pairwise (fun a b => memcmpBytes a.1 b.1 ≤ 0)) :
    ∃ o n : DataNode,
      bp_data_node_split old (some id) = (0, o, some n) ∧
      o.items.length = old.items.length / 2 ∧
      n.items.length = old.items.length - old.items.length / 2 ∧
      o.items.length + n.items.length = old.items.length ∧
      (∀ a ∈ o.items, ∀ b ∈ n.items, memcmpBytes a.1 b.1 ≤ 0) ∧
      n.next = old.next ∧ o.next = some n.id ∧ n.id = id := by
  refine ⟨_, _, rfl, ?_, ?_, ?_, ?_, rfl, rfl, rfl⟩
  · have h := Nat.div_le_self old.items.length 2
    simp [List.length_take]
    omega
  · simp [List.length_drop]
  · have h := Nat.div_le_self old.items.length 2
    simp [List.length_take, List.length_drop]
    omega
  · intro a ha b hb
    have h2 := hsorted
    rw [← List.take_append_drop (old.items.length / 2) old.items] at h2
    exact (List.pairwise_append.mp h2).2.2 a ha b hb

/-- Witness for the leaf split theorem at the sorted two-item leaf
`c2Leaf` and address 3. -/
theorem bp_data_node_split_correct_witness :
    c2Leaf.items.Pairwise (fun a b => memcmpBytes a.1 b.1 ≤ 0) ∧
    (∃ o n : DataNode,
      bp_data_node_split c2Leaf (some 3) = (0, o, some n) ∧
      o.items.length = c2Leaf.items.length / 2 ∧
      n.items.length = c2Leaf.items.length - c2Leaf.items.length / 2 ∧
      o.items.length + n.items.length = c2Leaf.items.length ∧
      (∀ a ∈ o.items, ∀ b ∈ n.items, memcmpBytes a.1 b.1 ≤ 0) ∧
      n.next = c2Leaf.next ∧ o.next = some n.id ∧ n.id = 3) :=
  ⟨by decide, bp_data_node_split_correct c2Leaf 3 (by decide)⟩

/-- A comparator agreeing with the order also signals strictly greater by
a positive result. -/
theorem cmpAgrees_pos_iff {K : Type} [LinearOrder K] {cmp : K → K → Int}
    (h : CmpAgrees cmp) (a b : K) : 0 < cmp a b ↔ b < a := by
  rcases h a b with ⟨h1, h2⟩
  constructor
  · intro hp
    rcases lt_trichotomy a b with hlt | heq | hgt
    · have := h1.mpr hlt; omega
    · have := h2.mpr heq; omega
    · exact hgt
  · intro hgt
    rcases lt_trichotomy (cmp a b) 0 with hc | hc | hc
    · exact absurd (h1.mp hc) (lt_asymm hgt)
    · exact absurd (h2.mp hc) (ne_of_gt hgt)
    · exact hc

/-- In a sorted list, reading at a smaller in-range index gives a smaller
or equal element. -/
theorem sorted_getD_mono {K : Type} [LinearOrder K] {keys : List K}
    (hs : keys.Sorted (· ≤ ·)) {i j : Nat} (hij : i ≤ j)
    (hj : j < keys.length) (d : K) : keys.getD i d ≤ keys.getD j d := by
  have hi : i < keys.length := Nat.lt_of_le_of_lt hij hj
  rw [List.getD_eq_getElem keys d hi, List.getD_eq_getElem keys d hj]
  rcases Nat.eq_or_lt_of_le hij with h | h
  · subst h; exact le_refl _
  · have h2 := hs.rel_get_of_lt
      (show (⟨i, hi⟩ : Fin keys.length) < ⟨j, hj⟩ from h)
    simpa using h2

/-- The sign comparator on naturals agrees with the order. -/
theorem natCmp_agrees : CmpAgrees natCmp := by
  intro a b
  rcases lt_trichotomy a b with h | h | h
  · have h2 : a ≠ b := by omega
    constructor <;> simp [natCmp, h, h2]
  · subst h
    constructor <;> simp [natCmp]
  · have h1 : ¬ a < b := by omega
    have h2 : a ≠ b := by omega
    constructor <;> simp [natCmp, h1, h2]

/-- The binary search loop meets the search specification whenever the
candidate window `[low, low + itemNum)` is in range, everything to its
left is below the target and everything to its right is above it.  The
structural bound `fuel` only needs to dominate `itemNum`, which strictly
decreases. -/
theorem bpSearchOneAux_spec {K : Type} [LinearOrder K] {cmp : K → K → Int}
    {keys : List K} {target : K} (hcmp : CmpAgrees cmp)
    (hs : keys.Sorted (· ≤ ·)) :
    ∀ fuel itemNum low, 0 < itemNum → itemNum ≤ fuel →
      low + itemNum ≤ keys.length →
      (∀ k, k < low → keys.getD k target < target) →
      (∀ k, low + itemNum ≤ k → k < keys.length →
        target < keys.getD k target) →
      SearchResultSpec keys target
        (bpSearchOneAux cmp (fun i => keys.getD i target) target fuel low
          itemNum) := by
  intro fuel
  induction fuel with
  | zero => intro itemNum low hpos hfuel hle hlo hhi; omega
  | succ fuel ih =>
    intro itemNum low hpos hfuel hle hlo hhi
    have hhalf1 : 1 ≤ (if itemNum / 2 = 0 then 1 else itemNum / 2) := by
      split <;> omega
    have hhalf2 : (if itemNum / 2 = 0 then 1 else itemNum / 2) ≤ itemNum := by
      have h := Nat.div_le_self itemNum 2
      split <;> omega
    have hmidlt :
        low + (if itemNum / 2 = 0 then 1 else itemNum / 2) - 1
          < keys.length := by omega
    simp only [bpSearchOneAux]
    set H := if itemNum / 2 = 0 then 1 else itemNum / 2 with hH
    split_ifs with hc0 hcpos hstop hstop2
    · -- comparison zero: found at mid
      have heq := (hcmp target (keys.getD (low + H - 1) target)).2.mp hc0
      constructor
      · intro _
        exact ⟨hmidlt, heq.symm⟩
      · intro h; simp at h
    · -- target above mid and the window right of mid is empty
      have hmidlt2 : keys.getD (low + H - 1) target < target :=
        (cmpAgrees_pos_iff hcmp target _).mp hcpos
      constructor
      · intro h; simp at h
      · intro _
        refine ⟨by omega, ?_, ?_⟩
        · intro k hk
          have h1 : keys.getD k target ≤ keys.getD (low + H - 1) target :=
            sorted_getD_mono hs (by omega) hmidlt target
          exact lt_of_le_of_lt h1 hmidlt2
        · intro k hk1 hk2
          exact hhi k (by omega) hk2
    · -- target above mid: recurse on the right window
      have hmidlt2 : keys.getD (low + H - 1) target < target :=
        (cmpAgrees_pos_iff hcmp target _).mp hcpos
      apply ih
      · omega
      · omega
      · omega
      · intro k hk
        have h1 : keys.getD k target ≤ keys.getD (low + H - 1) target :=
          sorted_getD_mono hs (by omega) hmidlt target
        exact lt_of_le_of_lt h1 hmidlt2
      · intro k hk1 hk2
        exact hhi k (by omega) hk2
    · -- target below mid and the window left of mid is empty
      have hcneg : cmp target (keys.getD (low + H - 1) target) < 0 := by
        omega
      have hmidgt : target < keys.getD (low + H - 1) target :=
        (hcmp target _).1.mp hcneg
      constructor
      · intro h; simp at h
      · intro _
        refine ⟨by omega, ?_, ?_⟩
        · intro k hk
          exact hlo k (by omega)
        · intro k hk1 hk2
          have h1 : keys.getD (low + H - 1) target ≤ keys.getD k target :=
            sorted_getD_mono hs hk1 hk2 target
          exact lt_of_lt_of_le hmidgt h1
    · -- target below mid: recurse on the left window
      have hcneg : cmp target (keys.getD (low + H - 1) target) < 0 := by
        omega
      have hmidgt : target < keys.getD (low + H - 1) target :=
        (hcmp target _).1.mp hcneg
      apply ih
      · omega
      · omega
      · omega
      · exact hlo
      · intro k hk1 hk2
        have h1 : keys.getD (low + H - 1) target ≤ keys.getD k target :=
          sorted_getD_mono hs (by omega) hk2 target
        exact lt_of_lt_of_le hmidgt h1

/-- `bp_bi_search_one` meets the search specification on any array sorted
under the comparator. -/
theorem searchOne_spec {K : Type} [LinearOrder K] (cmp : K → K → Int)
    (keys : List K) (target : K) (hcmp : CmpAgrees cmp)
    (hs : keys.Sorted (· ≤ ·)) :
    SearchResultSpec keys target (bp_bi_search_one cmp keys target) := by
  by_cases hemp : keys.length = 0
  · constructor
    · intro h
      rw [bp_bi_search_one, if_pos hemp] at h
      simp at h
    · intro _
      rw [bp_bi_search_one, if_pos hemp]
      refine ⟨by omega, ?_, ?_⟩
      · intro k hk; omega
      · intro k hk1 hk2; omega
  · rw [bp_bi_search_one, if_neg hemp]
    apply bpSearchOneAux_spec hcmp hs
    · omega
    · exact le_refl _
    · omega
    · intro k hk; omega
    · intro k hk1 hk2
      exact absurd hk2 (by omega)

/-- When a matching key exists, `bp_bi_search_one` reports found. -/
theorem searchOne_complete {K : Type} [LinearOrder K] (cmp : K → K → Int)
    (keys : List K) (target : K) (hcmp : CmpAgrees cmp)
    (hs : keys.Sorted (· ≤ ·))
    (hex : ∃ i, i < keys.length ∧ keys.getD i target = target) :
    (bp_bi_search_one cmp keys target).1 = true := by
  rcases hex with ⟨i, hi, hieq⟩
  rcases searchOne_spec cmp keys target hcmp hs with ⟨_, hnot⟩
  cases hb : (bp_bi_search_one cmp keys target).1
  · rcases hnot hb with ⟨_, hlt, hgt⟩
    rcases Nat.lt_or_ge i (bp_bi_search_one cmp keys target).2 with h | h
    · have h2 := hlt i h
      rw [hieq] at h2
      exact absurd h2 (lt_irrefl target)
    · have h2 := hgt i h hi
      rw [hieq] at h2
      exact absurd h2 (lt_irrefl target)
  · rfl

/-- C3: on every packed array sorted non-decreasingly under a comparator
that agrees with the key order, `bp_bi_search_one` reports found with an
index of some matching item when a match exists; otherwise it reports
not-found with the index of the first item whose key exceeds the target
(every smaller index holds a smaller key, every index from it on holds a
greater key), which is the item count when the target exceeds all keys;
and on an empty array it reports not-found at index 0. -/
theorem bp_bi_search_one_correct {K : Type} [LinearOrder K]
    (cmp : K → K → Int) (keys : List K) (target : K) (hcmp : CmpAgrees cmp)
    (hs : keys.Sorted (· ≤ ·)) :
    (keys = [] → bp_bi_search_one cmp keys target = (false, 0)) ∧
    ((bp_bi_search_one cmp keys target).1 = true →
      (bp_bi_search_one cmp keys target).2 < keys.length ∧
      keys.getD (bp_bi_search_one cmp keys target).2 target = target) ∧
    ((bp_bi_search_one cmp keys target).1 = false →
      (bp_bi_search_one cmp keys target).2 ≤ keys.length ∧
      (∀ k, k < (bp_bi_search_one cmp keys target).2 →
        keys.getD k target < target) ∧
      (∀ k, (bp_bi_search_one cmp keys target).2 ≤ k → k < keys.length →
        target < keys.getD k target)) ∧
    ((∃ i, i < keys.length ∧ keys.getD i target = target) →
      (bp_bi_search_one cmp keys target).1 = true) := by
  rcases searchOne_spec cmp keys target hcmp hs with ⟨hfound, hnot⟩
  refine ⟨?_, hfound, hnot, searchOne_complete cmp keys target hcmp hs⟩
  intro hkeys
  subst hkeys
  rfl

/-- Witness for the search theorem: the sorted list `[1, 2, 2, 5]` with
the absent target 3 under the sign comparator on naturals. -/
theorem bp_bi_search_one_correct_witness :
    CmpAgrees natCmp ∧ ([1, 2, 2, 5] : List Nat).Sorted (· ≤ ·) ∧
    ((∃ i, i < ([1, 2, 2, 5] : List Nat).length ∧
        ([1, 2, 2, 5] : List Nat).getD i 2 = 2) →
      (bp_bi_search_one natCmp [1, 2, 2, 5] 2).1 = true) :=
  ⟨natCmp_agrees, by decide,
    (bp_bi_search_one_correct natCmp [1, 2, 2, 5] 2 natCmp_agrees
      (by decide)).2.2.2⟩

/-- Entered at a matching in-range index, the left scan of
`bp_bi_search_first` lands on the leftmost matching index. -/
theorem bpScanEqLeft_spec {K : Type} [LinearOrder K] {cmp : K → K → Int}
    {keys : List K} {target : K} (hcmp : CmpAgrees cmp)
    (hs : keys.Sorted (· ≤ ·)) :
    ∀ i, i < keys.length → keys.getD i target = target →
      bpScanEqLeft cmp (fun k => keys.getD k target) target i ≤ i ∧
      bpScanEqLeft cmp (fun k => keys.getD k target) target i
        < keys.length ∧
      keys.getD (bpScanEqLeft cmp (fun k => keys.getD k target) target i)
        target = target ∧
      ∀ k, k < bpScanEqLeft cmp (fun k => keys.getD k target) target i →
        keys.getD k target ≠ target := by
  intro i
  induction i with
  | zero =>
    intro hlt heq
    simp only [bpScanEqLeft]
    exact ⟨le_refl _, hlt, heq, fun k hk => by omega⟩
  | succ i ih =>
    intro hlt heq
    simp only [bpScanEqLeft]
    split_ifs with hc
    · have heqi : keys.getD i target = target := (hcmp _ _).2.mp hc
      have h := ih (by omega) heqi
      exact ⟨Nat.le_trans h.1 (by omega), h.2.1, h.2.2.1, h.2.2.2⟩
    · refine ⟨le_refl _, hlt, heq, ?_⟩
      intro k hk hkeq
      have h1 : keys.getD k target ≤ keys.getD i target :=
        sorted_getD_mono hs (by omega) (by omega) target
      have h2 : keys.getD i target ≤ keys.getD (i + 1) target :=
        sorted_getD_mono hs (by omega) hlt target
      rw [heq] at h2
      rw [hkeq] at h1
      exact hc ((hcmp _ _).2.mpr (le_antisymm h2 h1))

/-- Entered at a matching in-range index, the right scan of
`bp_bi_search_last` lands on the rightmost matching index. -/
theorem bpScanEqRightAux_spec {K : Type} [LinearOrder K] {cmp : K → K → Int}
    {keys : List K} {target : K} (hcmp : CmpAgrees cmp)
    (hs : keys.Sorted (· ≤ ·)) :
    ∀ fuel i, i < keys.length → keys.getD i target = target →
      keys.length - 1 - i ≤ fuel →
      i ≤ bpScanEqRightAux cmp (fun k => keys.getD k target) target
          keys.length fuel i ∧
      bpScanEqRightAux cmp (fun k => keys.getD k target) target keys.length
          fuel i < keys.length ∧
      keys.getD (bpScanEqRightAux cmp (fun k => keys.getD k target) target
        keys.length fuel i) target = target ∧
      ∀ k, bpScanEqRightAux cmp (fun k => keys.getD k target) target
          keys.length fuel i < k → k < keys.length →
        keys.getD k target ≠ target := by
  intro fuel
  induction fuel with
  | zero =>
    intro i hlt heq hfuel
    simp only [bpScanEqRightAux]
    refine ⟨le_refl _, hlt, heq, ?_⟩
    intro k hk1 hk2 _
    omega
  | succ fuel ih =>
    intro i hlt heq hfuel
    simp only [bpScanEqRightAux]
    split_ifs with hin hc
    · have heq1 : keys.getD (i + 1) target = target := (hcmp _ _).2.mp hc
      have h := ih (i + 1) (by omega) heq1 (by omega)
      exact ⟨Nat.le_trans (by omega) h.1, h.2.1, h.2.2.1, h.2.2.2⟩
    · refine ⟨le_refl _, hlt, heq, ?_⟩
      intro k hk1 hk2 hkeq
      have h1 : keys.getD (i + 1) target ≤ keys.getD k target :=
        sorted_getD_mono hs (by omega) hk2 target
      have h2 : keys.getD i target ≤ keys.getD (i + 1) target :=
        sorted_getD_mono hs (by omega) (by omega) target
      rw [hkeq] at h1
      rw [heq] at h2
      exact hc ((hcmp _ _).2.mpr (le_antisymm h1 h2))
    · refine ⟨le_refl _, hlt, heq, ?_⟩
      intro k hk1 hk2 _
      omega

/-- C7: on every sorted packed array, when the target is present
`bp_bi_search_first` reports found at the leftmost matching index and
`bp_bi_search_last` at the rightmost matching index; when the target is
absent both return exactly the result of `bp_bi_search_one`. -/
theorem bp_bi_search_first_last_correct {K : Type} [LinearOrder K]
    (cmp : K → K → Int) (keys : List K) (target : K) (hcmp : CmpAgrees cmp)
    (hs : keys.Sorted (· ≤ ·)) :
    ((∃ i, i < keys.length ∧ keys.getD i target = target) →
      ((bp_bi_search_first cmp keys target).1 = true ∧
       (bp_bi_search_first cmp keys target).2 < keys.length ∧
       keys.getD (bp_bi_search_first cmp keys target).2 target = target ∧
       (∀ k, k < (bp_bi_search_first cmp keys target).2 →
         keys.getD k target ≠ target)) ∧
      ((bp_bi_search_last cmp keys target).1 = true ∧
       (bp_bi_search_last cmp keys target).2 < keys.length ∧
       keys.getD (bp_bi_search_last cmp keys target).2 target = target ∧
       (∀ k, (bp_bi_search_last cmp keys target).2 < k → k < keys.length →
         keys.getD k target ≠ target))) ∧
    ((∀ i, i < keys.length → keys.getD i target ≠ target) →
      bp_bi_search_first cmp keys target = bp_bi_search_one cmp keys target ∧
      bp_bi_search_last cmp keys target = bp_bi_search_one cmp keys target) := by
  constructor
  · intro hex
    have htrue := searchOne_complete cmp keys target hcmp hs hex
    have hspec := (searchOne_spec cmp keys target hcmp hs).1 htrue
    rcases hone : bp_bi_search_one cmp keys target with ⟨b, idx⟩
    rw [hone] at htrue hspec
    simp only at htrue
    subst htrue
    simp only at hspec
    constructor
    · have h := bpScanEqLeft_spec hcmp hs idx hspec.1 hspec.2
      rw [bp_bi_search_first, hone]
      exact ⟨by trivial, h.2.1, h.2.2.1, h.2.2.2⟩
    · have h := bpScanEqRightAux_spec hcmp hs (keys.length - 1 - idx) idx
        hspec.1 hspec.2 (le_refl _)
      rw [bp_bi_search_last, hone]
      simp only [bpScanEqRight]
      exact ⟨by trivial, h.2.1, h.2.2.1, h.2.2.2⟩
  · intro habs
    have hfalse : (bp_bi_search_one cmp keys target).1 = false := by
      cases hb : (bp_bi_search_one cmp keys target).1
      · rfl
      · have hspec := (searchOne_spec cmp keys target hcmp hs).1 hb
        exact absurd hspec.2 (habs _ hspec.1)
    rcases hone : bp_bi_search_one cmp keys target with ⟨b, idx⟩
    rw [hone] at hfalse
    simp only at hfalse
    subst hfalse
    constructor
    · rw [bp_bi_search_first, hone]
    · rw [bp_bi_search_last, hone]

/-- Witness for the first and last search theorem: the sorted list
`[1, 2, 2, 5]` with the present target 2. -/
theorem bp_bi_search_first_last_correct_witness :
    CmpAgrees natCmp ∧ ([1, 2, 2, 5] : List Nat).Sorted (· ≤ ·) ∧
    ((∃ i, i < ([1, 2, 2, 5] : List Nat).length ∧
        ([1, 2, 2, 5] : List Nat).getD i 2 = 2) →
      ((bp_bi_search_first natCmp [1, 2, 2, 5] 2).1 = true ∧
       (bp_bi_search_first natCmp [1, 2, 2, 5] 2).2
         < ([1, 2, 2, 5] : List Nat).length ∧
       ([1, 2, 2, 5] : List Nat).getD
         (bp_bi_search_first natCmp [1, 2, 2, 5] 2).2 2 = 2 ∧
       (∀ k, k < (bp_bi_search_first natCmp [1, 2, 2, 5] 2).2 →
         ([1, 2, 2, 5] : List Nat).getD k 2 ≠ 2)) ∧
      ((bp_bi_search_last natCmp [1, 2, 2, 5] 2).1 = true ∧
       (bp_bi_search_last natCmp [1, 2, 2, 5] 2).2
         < ([1, 2, 2, 5] : List Nat).length ∧
       ([1, 2, 2, 5] : List Nat).getD
         (bp_bi_search_last natCmp [1, 2, 2, 5] 2).2 2 = 2 ∧
       (∀ k, (bp_bi_search_last natCmp [1, 2, 2, 5] 2).2 < k →
         k < ([1, 2, 2, 5] : List Nat).length →
         ([1, 2, 2, 5] : List Nat).getD k 2 ≠ 2))) :=
  ⟨natCmp_agrees, by decide,
    (bp_bi_search_first_last_correct natCmp [1, 2, 2, 5] 2 natCmp_agrees
      (by decide)).1⟩

end BPlus
